import Mathlib

/-!
Verification of the staticomment comment server (Go) against its
natural-language specification, via a shallow embedding in Lean 4.

Go strings are modelled as Lean `String` (with `List Char` helpers for the
character-level loops of the source); machine integers (`int`, `int64`,
Unix times) are modelled as `Int`; fallible operations return `Except` or
`Option`; external effects (the filesystem, the `git` / `ssh-keyscan`
subprocesses, the wall clock, the random source) are passed in explicitly
as oracle parameters, so every definition is executable.
-/

set_option autoImplicit false

namespace Staticomment

/-! ## String helpers (models of the Go standard-library calls used) -/

/-- Model of ASCII whitespace, for `strings.TrimSpace` (the source only ever
trims ordinary form values, where Unicode-only whitespace does not occur). -/
def isSpaceChar (c : Char) : Bool :=
  c == ' ' || c == '\t' || c == '\n' || c == '\r' || c == '\x0b' || c == '\x0c'

/-- Model of Go `strings.TrimSpace`. -/
def trimSpace (s : String) : String :=
  String.mk (((s.toList.dropWhile isSpaceChar).reverse.dropWhile isSpaceChar).reverse)

/-- `isPrefixList pat l` is true when `pat` is a prefix of `l`. -/
def isPrefixList : List Char → List Char → Bool
  | [], _ => true
  | _ :: _, [] => false
  | p :: ps, c :: cs => p == c && isPrefixList ps cs

/-- `containsSeq l pat` models Go `strings.Contains(l, pat)`:
`pat` occurs as a contiguous substring of `l`. -/
def containsSeq : List Char → List Char → Bool
  | l, pat =>
    match l with
    | [] => pat.isEmpty
    | _ :: rest => isPrefixList pat l || containsSeq rest pat

/-- Prefix of `l` strictly before the first occurrence of `c`
(the whole list when `c` is absent); models `strings.SplitN(l, c, 2)[0]`. -/
def takeUntilChar (c : Char) : List Char → List Char
  | [] => []
  | x :: xs => if x == c then [] else x :: takeUntilChar c xs

/-- Suffix of `l` strictly after the first occurrence of `c`
(empty when `c` is absent); models `strings.SplitN(l, c, 2)[1]`. -/
def dropThroughChar (c : Char) : List Char → List Char
  | [] => []
  | x :: xs => if x == c then xs else dropThroughChar c xs

/-! ## Slug validation (comments.go `isValidSlug`) -/

/-- The character class admitted by the loop in `isValidSlug`:
ASCII letters, digits, hyphen, underscore. -/
def isSlugChar (c : Char) : Bool :=
  ('a' ≤ c && c ≤ 'z') || ('A' ≤ c && c ≤ 'Z') || ('0' ≤ c && c ≤ '9') ||
    c == '-' || c == '_'

/-- Embedding of `isValidSlug` from comments.go: reject the empty string,
any occurrence of the substring `..`, any `/` or `\`, and any character
outside `[A-Za-z0-9_-]`. -/
def isValidSlug (slug : String) : Bool :=
  if slug.toList.isEmpty then false
  else if containsSeq slug.toList ['.', '.'] then false
  else if slug.toList.any (fun c => c == '/' || c == '\\') then false
  else slug.toList.all isSlugChar

/-! ## Spam checks (spam.go) -/

/-- Embedding of `checkHoneypot` from spam.go. The request's form is
modelled as the total lookup `form : String → String` (Go `FormValue`
returns the empty string for an absent field). -/
def checkHoneypot (form : String → String) (fieldName : String) : Bool :=
  if fieldName = "" then false
  else trimSpace (form fieldName) != ""

/-- Digit-string to number; `none` on the empty string or any non-digit. -/
def digitsToNat (cs : List Char) : Option Nat :=
  if cs.isEmpty then none
  else if cs.all Char.isDigit then
    some (cs.foldl (fun acc c => 10 * acc + (c.toNat - '0'.toNat)) 0)
  else none

/-- Model of Go `strconv.ParseInt(s, 10, 64)`: optional sign, decimal
digits, and an int64 range check. -/
def parseInt64 (s : String) : Option Int :=
  let signed : Option Int :=
    match s.toList with
    | '+' :: rest => (digitsToNat rest).map (fun n => (n : Int))
    | '-' :: rest => (digitsToNat rest).map (fun n => -(n : Int))
    | l => (digitsToNat l).map (fun n => (n : Int))
  match signed with
  | none => none
  | some v => if -(2 ^ 63) ≤ v ∧ v ≤ 2 ^ 63 - 1 then some v else none

/-- Embedding of `checkTimestamp` from spam.go. `nowUnix` models
`time.Now().Unix()`. Returns true when the submission looks automated. -/
def checkTimestamp (form : String → String) (nowUnix : Int) (minSeconds : Int) : Bool :=
  if minSeconds ≤ 0 then false
  else
    let tsStr := trimSpace (form "_timestamp")
    if tsStr = "" then false
    else
      match parseInt64 tsStr with
      | none => true
      | some ts => decide (nowUnix - ts < minSeconds)

/-! ## Rate limiter (spam.go `RateLimiter`) -/

/-- Go `time.Second` in nanoseconds (`time.Duration` is an `int64`
nanosecond count). -/
def nanosPerSecond : Int := 1000000000

/-- Embedding of the `RateLimiter` struct from spam.go. Times
(`time.Time`) are modelled as `Int` instants; the per-IP map is a total
function with the empty list as the absent value (Go map zero value). -/
structure RateLimiter where
  window : Int
  max : Int
  entries : String → List Int

/-- Embedding of `NewRateLimiter` (the background cleanup goroutine is a
memory optimisation and is not part of the claims). -/
def NewRateLimiter (windowSeconds mx : Int) : RateLimiter :=
  { window := windowSeconds * nanosPerSecond, max := mx, entries := fun _ => [] }

/-- Embedding of `RateLimiter.Allow` from spam.go: the returned pair is
(the boolean result, the updated limiter state). `t.After(cutoff)` is the
strict comparison `cutoff < t`. -/
def RateLimiter.Allow (rl : RateLimiter) (ip : String) (now : Int) :
    Bool × RateLimiter :=
  if rl.max ≤ 0 then (true, rl)
  else
    let cutoff := now - rl.window
    let valid := (rl.entries ip).filter (fun t => decide (cutoff < t))
    if rl.max ≤ (valid.length : Int) then
      (false, { rl with entries := Function.update rl.entries ip valid })
    else
      (true, { rl with entries := Function.update rl.entries ip (valid ++ [now]) })

/-! ## Repository synchronizer: `CommitAndPush` (git.go) -/

/-- Oracle for the git subprocesses run by `CommitAndPush`: `pullOk i` is
the result of the i-th `git pull --rebase` (0 = the pull before the
commit, `i+1` = the pull after failed push attempt `i`), `pushOk i` the
result of 0-based push attempt `i`. -/
structure GitEnv where
  pullOk : Nat → Bool
  addOk : Bool
  commitOk : Bool
  pushOk : Nat → Bool

inductive CPOutcome where
  | success
  | pullBeforeCommitError
  | addError
  | commitError
  | pullDuringRetryError
  | pushExhausted
  deriving DecidableEq, Repr

/-- Result of `CommitAndPush` together with the observable subprocess
trace facts the claims are about: how many pushes ran and whether
`git rebase --abort` was issued. -/
structure CPResult where
  outcome : CPOutcome
  pushAttempts : Nat
  rebaseAborted : Bool
  deriving DecidableEq, Repr

/-- `pushMaxRetries` from git.go. -/
def pushMaxRetries : Nat := 3

/-- The `for attempt := 0; attempt < pushMaxRetries` loop of
`CommitAndPush`; `remaining` is `pushMaxRetries - attempt`. -/
def pushLoop (env : GitEnv) : Nat → Nat → Nat → CPResult
  | _, 0, pushes => ⟨.pushExhausted, pushes, false⟩
  | attempt, r + 1, pushes =>
    if env.pushOk attempt then ⟨.success, pushes + 1, false⟩
    else if env.pullOk (attempt + 1) then pushLoop env (attempt + 1) r (pushes + 1)
    else ⟨.pullDuringRetryError, pushes + 1, true⟩

/-- Embedding of `GitRepo.CommitAndPush` from git.go (the mutex, the file
path and the commit message do not enter the control flow). -/
def CommitAndPush (env : GitEnv) : CPResult :=
  if env.pullOk 0 then
    if env.addOk then
      if env.commitOk then pushLoop env 0 pushMaxRetries 0
      else ⟨.commitError, 0, false⟩
    else ⟨.addError, 0, false⟩
  else ⟨.pullBeforeCommitError, 0, false⟩

/-! ## Repository synchronizer: `Clone` (git.go) -/

/-- Oracle for the filesystem and subprocess operations of `Clone`:
`workingCopyExists` models the `os.Stat(repoDir/.git)` success,
`mkdirOk i` / `cloneOk i` the i-th `MkdirAll` / `git clone`,
`refreshOk` the `refreshHostKeys` call, `removeOk` the `os.RemoveAll`,
and the two `git config` runs set the commit identity. -/
structure CloneEnv where
  workingCopyExists : Bool
  pullOk : Bool
  mkdirOk : Nat → Bool
  cloneOk : Nat → Bool
  refreshOk : Bool
  removeOk : Bool
  configEmailOk : Bool
  configNameOk : Bool

inductive CloneOutcome where
  | success
  | pullError
  | mkdirError
  | cloneError
  | removeError
  | configError
  deriving DecidableEq, Repr

/-- Result of `Clone` with the observable trace facts the claim is about. -/
structure CloneResult where
  outcome : CloneOutcome
  cloneAttempts : Nat
  refreshed : Bool
  pulledInstead : Bool
  identityConfigured : Bool
  deriving DecidableEq, Repr

/-- The two `git config user.email` / `user.name` runs at the end of a
successful clone. -/
def configureIdentity (env : CloneEnv) (attempts : Nat) (refreshed : Bool) : CloneResult :=
  if env.configEmailOk then
    if env.configNameOk then ⟨.success, attempts, refreshed, false, true⟩
    else ⟨.configError, attempts, refreshed, false, false⟩
  else ⟨.configError, attempts, refreshed, false, false⟩

/-- Embedding of `GitRepo.Clone` from git.go. A failed `ensureHostKeys`
at the top is only logged as a warning in the source, so it does not
appear in the control flow; `insecure` is `cfg.SSHInsecure`. -/
def Clone (insecure : Bool) (env : CloneEnv) : CloneResult :=
  if env.workingCopyExists then
    ⟨if env.pullOk then .success else .pullError, 0, false, true, false⟩
  else if env.mkdirOk 0 = false then ⟨.mkdirError, 0, false, false, false⟩
  else if env.cloneOk 0 then configureIdentity env 1 false
  else if insecure then ⟨.cloneError, 1, false, false, false⟩
  else if env.refreshOk = false then ⟨.cloneError, 1, false, false, false⟩
  else if env.removeOk = false then ⟨.removeError, 1, true, false, false⟩
  else if env.mkdirOk 1 = false then ⟨.mkdirError, 1, true, false, false⟩
  else if env.cloneOk 1 then configureIdentity env 2 true
  else ⟨.cloneError, 2, true, false, false⟩

/-! ## Host trust store (git.go `ensureHostKeys` / `refreshHostKeys`) -/

/-- Splits `l` around the first occurrence of the `://` separator:
`some (before, after)`, or `none` when the separator does not occur.
Used to model `net/url` parsing of absolute URLs. -/
def breakOnSchemeSep : List Char → Option (List Char × List Char)
  | [] => none
  | c :: rest =>
    if isPrefixList [':', '/', '/'] (c :: rest) then some ([], rest.drop 2)
    else
      match breakOnSchemeSep rest with
      | none => none
      | some (b, a) => some (c :: b, a)

/-- Model of Go `url.Parse(s).Hostname()` for the absolute
`scheme://[user@]host[:port]/...` form: the authority component with any
userinfo and port stripped; the empty string when `s` has no `://`
(for such strings `net/url` yields no host). -/
def urlHostname (s : String) : String :=
  match breakOnSchemeSep s.toList with
  | none => ""
  | some (_, rest) =>
    let authority := rest.takeWhile (fun c => !(c == '/' || c == '?' || c == '#'))
    let hostport := if authority.contains '@' then dropThroughChar '@' authority else authority
    String.mk (takeUntilChar ':' hostport)

/-- Embedding of `extractHost` from git.go: the SSH `user@host:path` form
is split by hand; anything else goes through `net/url`. -/
def extractHost (repo : String) : String :=
  if repo.toList.contains '@' && repo.toList.contains ':'
      && !(containsSeq repo.toList [':', '/', '/']) then
    String.mk (takeUntilChar ':' (dropThroughChar '@' repo.toList))
  else urlHostname repo

/-- Oracle for the `ssh-keyscan` subprocess: the scanned key lines for a
host, or `none` when the scan fails. -/
structure HostKeyEnv where
  scan : String → Option (List String)

/-- Embedding of `hostInKnownHosts` from git.go; the known_hosts file is
modelled as its list of lines (a missing file reads as the empty list). -/
def hostInKnownHosts (store : List String) (host : String) : Bool :=
  store.any (fun line => isPrefixList (host ++ " ").toList line.toList
                      || isPrefixList (host ++ ",").toList line.toList)

/-- Embedding of `scanAndAppendHostKeys`: scan, then append the scanned
lines to the store. -/
def scanAndAppendHostKeys (env : HostKeyEnv) (store : List String) (host : String) :
    Except String (List String) :=
  match env.scan host with
  | none => Except.error ("ssh-keyscan " ++ host)
  | some keys => Except.ok (store ++ keys)

/-- Embedding of `scanAndWriteHostKeys`: scan, then overwrite the whole
store with the scanned lines. -/
def scanAndWriteHostKeys (env : HostKeyEnv) (host : String) :
    Except String (List String) :=
  match env.scan host with
  | none => Except.error ("ssh-keyscan " ++ host)
  | some keys => Except.ok keys

/-- Embedding of `GitRepo.ensureHostKeys` from git.go; the returned store
is the known_hosts content after the call. -/
def ensureHostKeys (insecure : Bool) (gitRepoURL : String) (env : HostKeyEnv)
    (store : List String) : Except String (List String) :=
  if insecure then Except.ok store
  else
    let host := extractHost gitRepoURL
    if host = "" then
      Except.error ("could not extract host from repo URL: " ++ gitRepoURL)
    else if hostInKnownHosts store host then Except.ok store
    else scanAndAppendHostKeys env store host

/-- Embedding of `GitRepo.refreshHostKeys` from git.go. -/
def refreshHostKeys (gitRepoURL : String) (env : HostKeyEnv)
    (store : List String) : Except String (List String) :=
  let host := extractHost gitRepoURL
  if host = "" then
    Except.error ("could not extract host from repo URL: " ++ gitRepoURL)
  else scanAndWriteHostKeys env host

/-! ## Comment handler (comments.go) -/

/-- The configuration fields consumed by the handler. -/
structure Config where
  CommentsPath : String
  PostsPath : String
  AllowedOrigins : List String

/-- `defaultMaxBodyLen` from comments.go. -/
def defaultMaxBodyLen : Nat := 10000

/-- Model of Go `len` on a string: the UTF-8 byte count (a Go string is
a byte slice; `len` does not count runes). -/
def utf8Len (s : String) : Nat :=
  s.toList.foldl (fun n c => n + c.utf8Size) 0

/-- The `Comment` struct from comments.go. -/
structure Comment where
  Name : String
  Email : String
  Body : String
  Date : String
  Slug : String
  ReplyTo : String
  deriving DecidableEq, Repr

/-- The parts of an `http.Request` the handler reads: method, the two
headers, and the parsed form (Go `FormValue` returns `""` for an absent
field). -/
structure Request where
  method : String
  originHeader : String
  refererHeader : String
  form : String → String

/-- Model of Go `url.Parse(s).Scheme` for the URL shapes the handler
sees: the part before `://`, empty when no `://` occurs. -/
def urlScheme (s : String) : String :=
  match breakOnSchemeSep s.toList with
  | none => ""
  | some (b, _) => String.mk b

/-- Model of Go `url.Parse(s).Host` (authority, including any port) for
absolute URLs; empty when no `://` occurs. -/
def urlHost (s : String) : String :=
  match breakOnSchemeSep s.toList with
  | none => ""
  | some (_, rest) =>
    String.mk (rest.takeWhile (fun c => !(c == '/' || c == '?' || c == '#')))

/-- Embedding of `CommentHandler.checkOrigin` from comments.go: the
`Origin` header, or when absent the scheme+host of `Referer`, compared
for exact equality against the allow-list. -/
def checkOrigin (allowedOrigins : List String) (r : Request) : Bool :=
  if r.originHeader = "" then
    if r.refererHeader = "" then false
    else allowedOrigins.contains
      (urlScheme r.refererHeader ++ "://" ++ urlHost r.refererHeader)
  else allowedOrigins.contains r.originHeader

/-- Embedding of `CommentHandler.isAllowedRedirect` from comments.go. -/
def isAllowedRedirect (allowedOrigins : List String) (rawURL : String) : Bool :=
  allowedOrigins.contains (urlScheme rawURL ++ "://" ++ urlHost rawURL)

/-- The responses the handler can produce. The query-string re-encoding
done by `errorRedirect` and the `#comment-submitted` fragment are
abstracted into the constructors; the decision structure is what the
claims are about. -/
inductive Response where
  | plainError (status : Nat) (msg : String)
  | seeOtherError (redirectURL msg : String)
  | seeOtherSuccess (redirectURL : String)
  deriving DecidableEq, Repr

/-- Embedding of `CommentHandler.errorRedirect`: with a non-empty
redirect URL, a 303 redirect carrying `comment_error=msg`; otherwise a
plain 400. -/
def errorRedirect (redirectURL msg : String) : Response :=
  if redirectURL ≠ "" then Response.seeOtherError redirectURL msg
  else Response.plainError 400 msg

/-- Oracle for the handler's effectful collaborators: the post-existence
glob, `writeComment` (the written relative path, `none` on failure) and
`CommitAndPush`. -/
structure HandlerEnv where
  postExists : String → Bool
  writeCommentResult : Option String
  commitAndPushOk : Bool

/-- Embedding of `CommentHandler.ServeHTTP` from comments.go
(`MaxBytesReader` and `ParseForm` cannot fail in the model; `email` is
read but never branched on). -/
def ServeHTTP (cfg : Config) (env : HandlerEnv) (r : Request) : Response :=
  if r.method ≠ "POST" then Response.plainError 405 "Method not allowed"
  else if checkOrigin cfg.AllowedOrigins r = false then
    Response.plainError 403 "Forbidden: origin not allowed"
  else
    let name := trimSpace (r.form "name")
    let body := trimSpace (r.form "body")
    let slug := trimSpace (r.form "slug")
    let replyTo := trimSpace (r.form "reply_to")
    let redirectURL := trimSpace (r.form "url")
    if redirectURL ≠ "" ∧ isAllowedRedirect cfg.AllowedOrigins redirectURL = false then
      Response.plainError 403 "Forbidden: redirect URL origin not allowed"
    else if name = "" ∨ body = "" ∨ slug = "" ∨ redirectURL = "" then
      errorRedirect redirectURL "Missing required fields (name, body, slug, url)"
    else if defaultMaxBodyLen < utf8Len body then
      errorRedirect redirectURL "Comment body too long"
    else if isValidSlug slug = false then
      errorRedirect redirectURL "Invalid slug"
    else if replyTo ≠ "" ∧ isValidSlug replyTo = false then
      errorRedirect redirectURL "Invalid reply_to"
    else if cfg.PostsPath ≠ "" ∧ env.postExists slug = false then
      errorRedirect redirectURL "Post not found"
    else
      match env.writeCommentResult with
      | none => errorRedirect redirectURL "Failed to save comment"
      | some _ =>
        if env.commitAndPushOk then Response.seeOtherSuccess redirectURL
        else errorRedirect redirectURL "Failed to publish comment"

/-! ## Comment writer (comments.go `writeComment`) -/

/-- `repoDir` from git.go. -/
def repoDir : String := "/app/repo"

/-- In-memory filesystem: an association of absolute paths to file
contents. -/
abbrev FS := List (String × String)

def fsLookup : FS → String → Option String
  | [], _ => none
  | (q, d) :: rest, p => if q == p then some d else fsLookup rest p

/-- Model of `os.WriteFile` (O_WRONLY|O_CREATE|O_TRUNC): create the file
or replace the contents of an existing one, reporting no error either
way. -/
def fsWrite : FS → String → String → FS
  | [], p, data => [(p, data)]
  | (q, d) :: rest, p, data =>
    if q == p then (q, data) :: rest else (q, d) :: fsWrite rest p data

def digitChar (n : Nat) : Char := Char.ofNat ('0'.toNat + n % 10)

def pad2 (n : Nat) : List Char := [digitChar (n / 10 % 10), digitChar (n % 10)]

def pad4 (n : Nat) : List Char :=
  [digitChar (n / 1000 % 10), digitChar (n / 100 % 10), digitChar (n / 10 % 10),
    digitChar (n % 10)]

/-- A UTC wall-clock instant at second precision. -/
structure UTCTime where
  year : Nat
  month : Nat
  day : Nat
  hour : Nat
  minute : Nat
  second : Nat

/-- Model of Go `time.Now().UTC().Format("20060102150405")`: the
zero-padded 14-digit second-precision stamp. -/
def formatTimestamp (t : UTCTime) : String :=
  String.mk (pad4 t.year ++ pad2 t.month ++ pad2 t.day ++ pad2 t.hour
    ++ pad2 t.minute ++ pad2 t.second)

def hexDigitChar (n : Nat) : Char :=
  if n < 10 then Char.ofNat ('0'.toNat + n) else Char.ofNat ('a'.toNat + (n - 10))

/-- Model of `randomHex` composed with its `crypto/rand` byte source:
`fmt.Sprintf("%x", b)` over the drawn bytes, two lowercase hex digits per
byte. -/
def randomHex (bytes : List Nat) : String :=
  String.mk (bytes.foldr
    (fun b acc => hexDigitChar (b / 16 % 16) :: hexDigitChar (b % 16) :: acc) [])

/-- Straight-line model of `yaml.Marshal` on the flat `Comment` struct
(declared field order; `omitempty` on email and reply_to). -/
def yamlMarshal (c : Comment) : String :=
  "name: " ++ c.Name ++ "\n"
  ++ (if c.Email ≠ "" then "email: " ++ c.Email ++ "\n" else "")
  ++ "body: " ++ c.Body ++ "\n"
  ++ "date: " ++ c.Date ++ "\n"
  ++ "slug: " ++ c.Slug ++ "\n"
  ++ (if c.ReplyTo ≠ "" then "reply_to: " ++ c.ReplyTo ++ "\n" else "")

/-- Embedding of `CommentHandler.writeComment` from comments.go. The
clock and the random bytes are explicit inputs; `MkdirAll`,
`yaml.Marshal` and `os.WriteFile` cannot fail in the model, and the
write uses `fsWrite` (O_TRUNC) semantics. Returns the relative path
result and the updated filesystem. -/
def writeComment (commentsPath : String) (fs : FS) (c : Comment)
    (now : UTCTime) (rndBytes : List Nat) : Except String String × FS :=
  let dir := commentsPath ++ "/" ++ c.Slug
  let filename := formatTimestamp now ++ "-" ++ randomHex rndBytes ++ ".yml"
  let relPath := dir ++ "/" ++ filename
  let fullPath := repoDir ++ "/" ++ relPath
  (Except.ok relPath, fsWrite fs fullPath (yamlMarshal c))

/-! ## Theorems -/

/-! ## Theorems about slug validation -/

theorem isPrefixList_head_mem {p : Char} {ps l : List Char}
    (h : isPrefixList (p :: ps) l = true) : p ∈ l := by
  cases l with
  | nil => simp [isPrefixList] at h
  | cons c cs =>
    simp only [isPrefixList, Bool.and_eq_true, beq_iff_eq] at h
    simp [h.1]

theorem containsSeq_head_mem {l : List Char} {p : Char} {ps : List Char}
    (h : containsSeq l (p :: ps) = true) : p ∈ l := by
  induction l with
  | nil => simp [containsSeq] at h
  | cons c cs ih =>
    rw [containsSeq] at h
    simp only [Bool.or_eq_true] at h
    rcases h with h | h
    · exact isPrefixList_head_mem h
    · exact List.mem_cons_of_mem c (ih h)

theorem all_slugChar_eq_false_of_mem {c : Char} {l : List Char}
    (hc : c ∈ l) (hbad : isSlugChar c = false) : l.all isSlugChar = false := by
  cases h : l.all isSlugChar
  · rfl
  · have := List.all_eq_true.mp h c hc
    rw [hbad] at this
    exact absurd this (by simp)

theorem isValidSlug_eq_all (slug : String) :
    isValidSlug slug = (!slug.toList.isEmpty && slug.toList.all isSlugChar) := by
  unfold isValidSlug
  cases hempty : slug.toList.isEmpty with
  | true => simp
  | false =>
    cases hdots : containsSeq slug.toList ['.', '.'] with
    | true =>
      have hmem : '.' ∈ slug.toList := containsSeq_head_mem hdots
      have hall : slug.toList.all isSlugChar = false :=
        all_slugChar_eq_false_of_mem hmem (by decide)
      rw [hall, Bool.and_false]
      simp
    | false =>
      cases hslash : slug.toList.any (fun c => c == '/' || c == '\\') with
      | true =>
        rcases List.any_eq_true.mp hslash with ⟨c, hc, hcs⟩
        simp only [Bool.or_eq_true, beq_iff_eq] at hcs
        have hall : slug.toList.all isSlugChar = false := by
          rcases hcs with rfl | rfl
          · exact all_slugChar_eq_false_of_mem hc (by decide)
          · exact all_slugChar_eq_false_of_mem hc (by decide)
        rw [hall, Bool.and_false]
        simp
      | false => simp

/-- C3: `isValidSlug` returns false on the empty string, on any string
containing the substring `..`, a `/` or `\`, or any character outside
ASCII letters / digits / hyphen / underscore; and it returns true on every
non-empty string composed only of those allowed characters. -/
theorem c3_isValidSlug_spec (slug : String) :
    (slug = "" → isValidSlug slug = false)
    ∧ (containsSeq slug.toList ['.', '.'] = true → isValidSlug slug = false)
    ∧ ((∃ c ∈ slug.toList, c = '/' ∨ c = '\\') → isValidSlug slug = false)
    ∧ ((∃ c ∈ slug.toList, isSlugChar c = false) → isValidSlug slug = false)
    ∧ (slug ≠ "" → (∀ c ∈ slug.toList, isSlugChar c = true) → isValidSlug slug = true) := by
  have hchar := isValidSlug_eq_all slug
  refine ⟨?_, ?_, ?_, ?_, ?_⟩
  · intro h
    subst h
    rfl
  · intro h
    have hmem : '.' ∈ slug.toList := containsSeq_head_mem h
    have hall : slug.toList.all isSlugChar = false :=
      all_slugChar_eq_false_of_mem hmem (by decide)
    rw [hchar, hall, Bool.and_false]
  · rintro ⟨c, hc, hcs⟩
    have hall : slug.toList.all isSlugChar = false := by
      rcases hcs with rfl | rfl
      · exact all_slugChar_eq_false_of_mem hc (by decide)
      · exact all_slugChar_eq_false_of_mem hc (by decide)
    rw [hchar, hall, Bool.and_false]
  · rintro ⟨c, hc, hcs⟩
    have hall : slug.toList.all isSlugChar = false :=
      all_slugChar_eq_false_of_mem hc hcs
    rw [hchar, hall, Bool.and_false]
  · intro hne hall
    have h1 : slug.toList.isEmpty = false := by
      cases h : slug.toList.isEmpty
      · rfl
      · exact absurd (String.ext (List.isEmpty_iff.mp h)) hne
    have h2 : slug.toList.all isSlugChar = true := List.all_eq_true.mpr hall
    rw [hchar, h1, h2, Bool.not_false, Bool.true_and]

theorem c3_witness :
    isValidSlug "my-post_1" = true :=
  (c3_isValidSlug_spec "my-post_1").2.2.2.2 (by decide) (by decide)

/-! ## Theorems about the spam checks -/

/-- C10: `checkHoneypot` returns false whenever the configured honeypot
field name is empty (the check is disabled when unconfigured), and
otherwise returns true exactly when the named form field is non-empty
after trimming whitespace. -/
theorem c10_checkHoneypot_spec (form : String → String) (fieldName : String) :
    (fieldName = "" → checkHoneypot form fieldName = false)
    ∧ (fieldName ≠ "" →
        (checkHoneypot form fieldName = true ↔ trimSpace (form fieldName) ≠ "")) := by
  constructor
  · intro h
    simp [checkHoneypot, h]
  · intro h
    simp [checkHoneypot, h]

theorem c10_witness :
    checkHoneypot (fun _ => " x ") "website" = true :=
  ((c10_checkHoneypot_spec (fun _ => " x ") "website").2 (by decide)).mpr (by decide)

/-- C9: `checkTimestamp` returns false when the hidden `_timestamp` field
is empty/absent or the configured minimum is not positive; when the
minimum is positive it returns true on a present but unparsable timestamp,
and on a well-formed timestamp it returns true exactly when the elapsed
time since it is below the configured minimum number of seconds. -/
theorem c9_checkTimestamp_spec (form : String → String) (now minSeconds : Int) :
    ((trimSpace (form "_timestamp") = "" ∨ minSeconds ≤ 0) →
        checkTimestamp form now minSeconds = false)
    ∧ (0 < minSeconds → trimSpace (form "_timestamp") ≠ "" →
        parseInt64 (trimSpace (form "_timestamp")) = none →
        checkTimestamp form now minSeconds = true)
    ∧ (0 < minSeconds → ∀ ts, parseInt64 (trimSpace (form "_timestamp")) = some ts →
        (checkTimestamp form now minSeconds = true ↔ now - ts < minSeconds)) := by
  refine ⟨?_, ?_, ?_⟩
  · intro h
    by_cases hm : minSeconds ≤ 0
    · simp [checkTimestamp, hm]
    · rcases h with he | he
      · simp [checkTimestamp, hm, he]
      · exact absurd he hm
  · intro hpos hne hnone
    have hm : ¬ minSeconds ≤ 0 := not_le.mpr hpos
    simp [checkTimestamp, hm, hne, hnone]
  · intro hpos ts hsome
    have hm : ¬ minSeconds ≤ 0 := not_le.mpr hpos
    have hne : trimSpace (form "_timestamp") ≠ "" := by
      intro hcontra
      rw [hcontra] at hsome
      rw [(by decide : parseInt64 "" = none)] at hsome
      exact Option.noConfusion hsome
    simp [checkTimestamp, hm, hne, hsome]

theorem c9_witness :
    checkTimestamp (fun _ => "100") 102 5 = true :=
  ((c9_checkTimestamp_spec (fun _ => "100") 102 5).2.2 (by decide) 100
    (by decide)).mpr (by decide)

/-- C2: for `max > 0`, `Allow` first prunes timestamps not newer than
`now − window`; if at least `max` remain it rejects and records nothing
new, otherwise it records `now` and accepts; and (given the inductive
bound that no IP holds more than `max` timestamps, true from the empty
initial state) after the call no IP retains more than `max` timestamps
newer than `now − window`. -/
theorem c2_Allow_spec (rl : RateLimiter) (ip : String) (now : Int)
    (hmax : 0 < rl.max) :
    (rl.max ≤ ((((rl.entries ip).filter (fun t => decide (now - rl.window < t))).length : Int) : Int) →
        (rl.Allow ip now).1 = false
        ∧ (rl.Allow ip now).2.entries ip
            = (rl.entries ip).filter (fun t => decide (now - rl.window < t)))
    ∧ (((((rl.entries ip).filter (fun t => decide (now - rl.window < t))).length : Int) : Int) < rl.max →
        (rl.Allow ip now).1 = true
        ∧ (rl.Allow ip now).2.entries ip
            = (rl.entries ip).filter (fun t => decide (now - rl.window < t)) ++ [now])
    ∧ (∀ ip2, ((rl.entries ip2).length : Int) ≤ rl.max →
        (((rl.Allow ip now).2.entries ip2).length : Int) ≤ rl.max
        ∧ ((((rl.Allow ip now).2.entries ip2).filter
              (fun t => decide (now - rl.window < t))).length : Int) ≤ rl.max) := by
  have hno : ¬ rl.max ≤ 0 := not_le.mpr hmax
  by_cases hfull :
      rl.max ≤ ((((rl.entries ip).filter (fun t => decide (now - rl.window < t))).length : Int) : Int)
  · have hres : rl.Allow ip now
        = (false, { rl with entries := Function.update rl.entries ip ((rl.entries ip).filter (fun t => decide (now - rl.window < t))) }) := by
      simp [RateLimiter.Allow, hno, hfull]
    refine ⟨fun _ => ⟨by rw [hres], by rw [hres]; exact Function.update_same ip _ _⟩,
            fun hlt => absurd hfull (not_le.mpr hlt), ?_⟩
    intro ip2 hip2
    by_cases heq : ip2 = ip
    · subst heq
      have hent : (rl.Allow ip2 now).2.entries ip2
          = (rl.entries ip2).filter (fun t => decide (now - rl.window < t)) := by
        rw [hres]
        exact Function.update_same ip2 _ _
      have h1 : ((rl.entries ip2).filter (fun t => decide (now - rl.window < t))).length
          ≤ (rl.entries ip2).length := List.length_filter_le _ _
      have h2 := List.length_filter_le (fun t => decide (now - rl.window < t))
        ((rl.entries ip2).filter (fun t => decide (now - rl.window < t)))
      rw [hent]
      exact ⟨by omega, by omega⟩
    · have hent : (rl.Allow ip now).2.entries ip2 = rl.entries ip2 := by
        rw [hres]
        exact Function.update_noteq heq _ _
      have h1 : ((rl.entries ip2).filter (fun t => decide (now - rl.window < t))).length
          ≤ (rl.entries ip2).length := List.length_filter_le _ _
      rw [hent]
      exact ⟨hip2, by omega⟩
  · have hres : rl.Allow ip now
        = (true, { rl with entries := Function.update rl.entries ip ((rl.entries ip).filter (fun t => decide (now - rl.window < t)) ++ [now]) }) := by
      simp [RateLimiter.Allow, hno, hfull]
    have hlt : ((((rl.entries ip).filter (fun t => decide (now - rl.window < t))).length : Int) : Int)
        < rl.max := lt_of_not_le hfull
    refine ⟨fun hge => absurd hge hfull,
            fun _ => ⟨by rw [hres], by rw [hres]; exact Function.update_same ip _ _⟩, ?_⟩
    intro ip2 hip2
    by_cases heq : ip2 = ip
    · subst heq
      have hent : (rl.Allow ip2 now).2.entries ip2
          = (rl.entries ip2).filter (fun t => decide (now - rl.window < t)) ++ [now] := by
        rw [hres]
        exact Function.update_same ip2 _ _
      have hlen : ((rl.entries ip2).filter (fun t => decide (now - rl.window < t)) ++ [now]).length
          = ((rl.entries ip2).filter (fun t => decide (now - rl.window < t))).length + 1 := by
        simp
      have h2 := List.length_filter_le (fun t => decide (now - rl.window < t))
        ((rl.entries ip2).filter (fun t => decide (now - rl.window < t)) ++ [now])
      rw [hent]
      rw [hlen] at h2
      exact ⟨by rw [hlen]; omega, by omega⟩
    · have hent : (rl.Allow ip now).2.entries ip2 = rl.entries ip2 := by
        rw [hres]
        exact Function.update_noteq heq _ _
      have h1 : ((rl.entries ip2).filter (fun t => decide (now - rl.window < t))).length
          ≤ (rl.entries ip2).length := List.length_filter_le _ _
      rw [hent]
      exact ⟨hip2, by omega⟩

theorem c2_witness :
    ((NewRateLimiter 60 2).Allow "ip" 0).1 = true
    ∧ ((NewRateLimiter 60 2).Allow "ip" 0).2.entries "ip"
        = ((NewRateLimiter 60 2).entries "ip").filter
            (fun t => decide (0 - (NewRateLimiter 60 2).window < t)) ++ [0] :=
  (c2_Allow_spec (NewRateLimiter 60 2) "ip" 0 (by decide)).2.1 (by decide)

theorem pushLoop3_eq (env : GitEnv) :
    pushLoop env 0 3 0
      = (if env.pushOk 0 then ⟨.success, 1, false⟩
         else if env.pullOk 1 then
           (if env.pushOk 1 then ⟨.success, 2, false⟩
            else if env.pullOk 2 then
              (if env.pushOk 2 then ⟨.success, 3, false⟩
               else if env.pullOk 3 then ⟨.pushExhausted, 3, false⟩
               else ⟨.pullDuringRetryError, 3, true⟩)
            else ⟨.pullDuringRetryError, 2, true⟩)
         else ⟨.pullDuringRetryError, 1, true⟩ : CPResult) := by
  rfl

/-- C1: once pull/add/commit succeed, push runs at most `pushMaxRetries`
(3) times; a successful attempt returns success immediately with no
further pushes; a failed pull-rebase between attempts aborts the rebase
and returns that pull error with no further pushes; and 3 failed pushes
return the terminal push-exhausted error. -/
theorem c1_CommitAndPush_spec (env : GitEnv)
    (hp : env.pullOk 0 = true) (ha : env.addOk = true) (hc : env.commitOk = true) :
    ((CommitAndPush env).pushAttempts ≤ pushMaxRetries)
    ∧ (∀ i, i < pushMaxRetries → env.pushOk i = true →
        (∀ j, j < i → env.pushOk j = false ∧ env.pullOk (j + 1) = true) →
        (CommitAndPush env).outcome = CPOutcome.success
        ∧ (CommitAndPush env).pushAttempts = i + 1)
    ∧ (∀ i, i < pushMaxRetries → (∀ j, j ≤ i → env.pushOk j = false) →
        (∀ j, j < i → env.pullOk (j + 1) = true) → env.pullOk (i + 1) = false →
        (CommitAndPush env).outcome = CPOutcome.pullDuringRetryError
        ∧ (CommitAndPush env).rebaseAborted = true
        ∧ (CommitAndPush env).pushAttempts = i + 1)
    ∧ ((∀ i, i < pushMaxRetries → env.pushOk i = false ∧ env.pullOk (i + 1) = true) →
        (CommitAndPush env).outcome = CPOutcome.pushExhausted
        ∧ (CommitAndPush env).pushAttempts = pushMaxRetries) := by
  have hstart : CommitAndPush env = pushLoop env 0 3 0 := by
    simp [CommitAndPush, hp, ha, hc, pushMaxRetries]
  refine ⟨?_, ?_, ?_, ?_⟩
  · rw [hstart, pushLoop3_eq]
    split_ifs <;> simp [pushMaxRetries]
  · intro i hi hok hprev
    rw [pushMaxRetries] at hi
    interval_cases i
    · simp [hstart, pushLoop3_eq, hok]
    · have h0 := hprev 0 (by omega)
      simp [hstart, pushLoop3_eq, h0.1, h0.2, hok]
    · have h0 := hprev 0 (by omega)
      have h1 := hprev 1 (by omega)
      simp [hstart, pushLoop3_eq, h0.1, h0.2, h1.1, h1.2, hok]
  · intro i hi hpushes hpulls hpullfail
    rw [pushMaxRetries] at hi
    interval_cases i
    · simp [hstart, pushLoop3_eq, hpushes 0 (by omega), hpullfail]
    · simp [hstart, pushLoop3_eq, hpushes 0 (by omega), hpushes 1 (by omega),
        hpulls 0 (by omega), hpullfail]
    · simp [hstart, pushLoop3_eq, hpushes 0 (by omega), hpushes 1 (by omega),
        hpushes 2 (by omega), hpulls 0 (by omega), hpulls 1 (by omega), hpullfail]
  · intro hall
    have g0 := hall 0 (by rw [pushMaxRetries]; omega)
    have g1 := hall 1 (by rw [pushMaxRetries]; omega)
    have g2 := hall 2 (by rw [pushMaxRetries]; omega)
    simp [hstart, pushLoop3_eq, g0.1, g0.2, g1.1, g1.2, g2.1, g2.2, pushMaxRetries]

theorem c1_witness :
    (CommitAndPush ⟨fun _ => true, true, true, fun i => i == 1⟩).outcome = CPOutcome.success
    ∧ (CommitAndPush ⟨fun _ => true, true, true, fun i => i == 1⟩).pushAttempts = 2 :=
  (c1_CommitAndPush_spec ⟨fun _ => true, true, true, fun i => i == 1⟩ rfl rfl rfl).2.1
    1 (by decide) rfl
    (fun j hj => by interval_cases j; exact ⟨rfl, rfl⟩)

theorem configureIdentity_success (env : CloneEnv) (a : Nat) (r : Bool) :
    (configureIdentity env a r).outcome = CloneOutcome.success →
    (configureIdentity env a r).identityConfigured = true := by
  cases he : env.configEmailOk <;> cases hn : env.configNameOk <;>
    simp [configureIdentity, he, hn]

/-- C5: `Clone` pulls instead of cloning when a working copy exists;
otherwise it clones the configured branch at most twice — on a first
failure with strict host checking it refreshes the host keys, discards
the partial directory and retries exactly once, erroring if the refresh
or the single retry fails — and on success it has configured the fixed
commit identity. -/
theorem c5_Clone_spec (insecure : Bool) (env : CloneEnv) :
    (env.workingCopyExists = true →
        (Clone insecure env).pulledInstead = true
        ∧ (Clone insecure env).cloneAttempts = 0
        ∧ ((Clone insecure env).outcome = CloneOutcome.success ↔ env.pullOk = true))
    ∧ ((Clone insecure env).cloneAttempts ≤ 2)
    ∧ (env.workingCopyExists = false → env.mkdirOk 0 = true → env.cloneOk 0 = false →
        insecure = false →
        ((env.refreshOk = false →
            (Clone insecure env).outcome = CloneOutcome.cloneError
            ∧ (Clone insecure env).cloneAttempts = 1)
         ∧ (env.refreshOk = true → env.removeOk = true → env.mkdirOk 1 = true →
            (Clone insecure env).cloneAttempts = 2
            ∧ (Clone insecure env).refreshed = true
            ∧ (env.cloneOk 1 = false →
                (Clone insecure env).outcome = CloneOutcome.cloneError))))
    ∧ (env.workingCopyExists = false →
        (Clone insecure env).outcome = CloneOutcome.success →
        (Clone insecure env).identityConfigured = true) := by
  refine ⟨?_, ?_, ?_, ?_⟩
  · intro hw
    cases hpull : env.pullOk <;> simp [Clone, hw, hpull]
  · unfold Clone configureIdentity
    split_ifs <;> simp
  · intro hw hm hc0 hins
    constructor
    · intro hr
      simp [Clone, hw, hm, hc0, hins, hr]
    · intro hr hrm hm1
      cases hc1 : env.cloneOk 1 <;>
        simp [Clone, configureIdentity, hw, hm, hc0, hins, hr, hrm, hm1, hc1] <;>
        cases he : env.configEmailOk <;>
          simp [he] <;> cases hn : env.configNameOk <;> simp [hn]
  · intro hw
    cases hm0 : env.mkdirOk 0
    · simp [Clone, hw, hm0]
    · cases hc0 : env.cloneOk 0
      · cases hi : insecure
        · cases hr : env.refreshOk
          · simp [Clone, hw, hm0, hc0, hi, hr]
          · cases hrm : env.removeOk
            · simp [Clone, hw, hm0, hc0, hi, hr, hrm]
            · cases hm1 : env.mkdirOk 1
              · simp [Clone, hw, hm0, hc0, hi, hr, hrm, hm1]
              · cases hc1 : env.cloneOk 1
                · simp [Clone, hw, hm0, hc0, hi, hr, hrm, hm1, hc1]
                · have hred : Clone false env = configureIdentity env 2 true := by
                    simp [Clone, hw, hm0, hc0, hr, hrm, hm1, hc1]
                  rw [hred]
                  exact configureIdentity_success env 2 true
        · simp [Clone, hw, hm0, hc0, hi]
      · have hred : Clone insecure env = configureIdentity env 1 false := by
          simp [Clone, hw, hm0, hc0]
        rw [hred]
        exact configureIdentity_success env 1 false

theorem c5_witness :
    (Clone false ⟨false, true, fun _ => true, fun _ => false, true, true, true, true⟩).cloneAttempts = 2
    ∧ (Clone false ⟨false, true, fun _ => true, fun _ => false, true, true, true, true⟩).outcome
        = CloneOutcome.cloneError :=
  ⟨(((c5_Clone_spec false ⟨false, true, fun _ => true, fun _ => false, true, true, true, true⟩).2.2.1
      rfl rfl rfl rfl).2 rfl rfl rfl).1,
   (((c5_Clone_spec false ⟨false, true, fun _ => true, fun _ => false, true, true, true, true⟩).2.2.1
      rfl rfl rfl rfl).2 rfl rfl rfl).2.2 rfl⟩

/-! ## Lemmas about `extractHost` and the host trust store -/

theorem toList_append (s t : String) : (s ++ t).toList = s.toList ++ t.toList :=
  String.data_append s t

theorem contains_eq_true_of_mem {l : List Char} {c : Char} (h : c ∈ l) :
    l.contains c = true :=
  List.elem_eq_true_of_mem h

theorem contains_eq_false_of_not_mem {l : List Char} {c : Char} (h : c ∉ l) :
    l.contains c = false := by
  simpa using h

theorem dropThroughChar_append {c : Char} {u : List Char} (rest : List Char)
    (h : c ∉ u) : dropThroughChar c (u ++ c :: rest) = rest := by
  induction u with
  | nil => simp [dropThroughChar]
  | cons x xs ih =>
    have hx : ¬ x == c := by
      simp only [beq_iff_eq]
      intro hcontra
      exact h (hcontra ▸ List.mem_cons_self x xs)
    simp only [List.cons_append, dropThroughChar, hx]
    exact ih (fun hm => h (List.mem_cons_of_mem x hm))

theorem takeUntilChar_append {c : Char} {u : List Char} (rest : List Char)
    (h : c ∉ u) : takeUntilChar c (u ++ c :: rest) = u := by
  induction u with
  | nil => simp [takeUntilChar]
  | cons x xs ih =>
    have hx : ¬ x == c := by
      simp only [beq_iff_eq]
      intro hcontra
      exact h (hcontra ▸ List.mem_cons_self x xs)
    simp only [List.cons_append, takeUntilChar, hx]
    exact congrArg (x :: ·) (ih (fun hm => h (List.mem_cons_of_mem x hm)))

theorem takeUntilChar_of_not_mem {c : Char} {l : List Char} (h : c ∉ l) :
    takeUntilChar c l = l := by
  induction l with
  | nil => rfl
  | cons x xs ih =>
    have hx : ¬ x == c := by
      simp only [beq_iff_eq]
      intro hcontra
      exact h (hcontra ▸ List.mem_cons_self x xs)
    simp only [takeUntilChar, hx, if_false]
    exact congrArg (x :: ·) (ih (fun hm => h (List.mem_cons_of_mem x hm)))

theorem isPrefixList_self_append (p r : List Char) :
    isPrefixList p (p ++ r) = true := by
  induction p with
  | nil => rfl
  | cons x xs ih => simp [isPrefixList, ih]

theorem containsSeq_of_isPrefixList {l pat : List Char}
    (h : isPrefixList pat l = true) : containsSeq l pat = true := by
  cases l with
  | nil =>
    cases pat with
    | nil => rfl
    | cons p ps => simp [isPrefixList] at h
  | cons c cs =>
    rw [containsSeq]
    simp [h]

theorem containsSeq_middle (u pat v : List Char) :
    containsSeq (u ++ pat ++ v) pat = true := by
  induction u with
  | nil =>
    simp only [List.nil_append]
    exact containsSeq_of_isPrefixList (isPrefixList_self_append pat v)
  | cons x xs ih =>
    rw [List.cons_append, containsSeq.eq_def]
    simp only [List.append_assoc] at ih ⊢
    simp [ih]

theorem takeWhile_append_cons {p : Char → Bool} {l : List Char} {x : Char}
    (r : List Char) (hall : ∀ c ∈ l, p c = true) (hx : p x = false) :
    (l ++ x :: r).takeWhile p = l := by
  induction l with
  | nil => simp [List.takeWhile_cons, hx]
  | cons c cs ih =>
    rw [List.cons_append, List.takeWhile_cons, hall c (List.mem_cons_self c cs)]
    simp only [if_true]
    exact congrArg (c :: ·) (ih (fun d hd => hall d (List.mem_cons_of_mem c hd)))

theorem breakOnSchemeSep_append {s : List Char} (rest : List Char)
    (hs : ':' ∉ s) :
    breakOnSchemeSep (s ++ ':' :: '/' :: '/' :: rest) = some (s, rest) := by
  induction s with
  | nil => rfl
  | cons x xs ih =>
    have hx : isPrefixList [':', '/', '/'] (x :: (xs ++ ':' :: '/' :: '/' :: rest)) = false := by
      have hxc : ¬ (':' == x) := by
        simp only [beq_iff_eq]
        intro hcontra
        exact hs (hcontra ▸ List.mem_cons_self x xs)
      simp [isPrefixList, hxc]
    rw [List.cons_append, breakOnSchemeSep]
    rw [hx]
    simp only [Bool.false_eq_true, if_false]
    rw [ih (fun hm => hs (List.mem_cons_of_mem x hm))]

theorem extractHost_ssh_form (user host path : String)
    (huser : '@' ∉ user.toList)
    (hhost : ':' ∉ host.toList)
    (hsep : containsSeq (user ++ "@" ++ host ++ ":" ++ path).toList [':', '/', '/'] = false) :
    extractHost (user ++ "@" ++ host ++ ":" ++ path) = host := by
  have h1 : ("@" : String).toList = ['@'] := rfl
  have h2 : (":" : String).toList = [':'] := rfl
  have hdecomp : (user ++ "@" ++ host ++ ":" ++ path).toList
      = user.toList ++ '@' :: (host.toList ++ ':' :: path.toList) := by
    simp [toList_append, h1, h2]
  have hat : (user ++ "@" ++ host ++ ":" ++ path).toList.contains '@' = true := by
    apply contains_eq_true_of_mem
    rw [hdecomp]
    exact List.mem_append_right _ (List.mem_cons_self _ _)
  have hcol : (user ++ "@" ++ host ++ ":" ++ path).toList.contains ':' = true := by
    apply contains_eq_true_of_mem
    rw [hdecomp]
    refine List.mem_append_right _ (List.mem_cons_of_mem _ ?_)
    exact List.mem_append_right _ (List.mem_cons_self _ _)
  unfold extractHost
  rw [hat, hcol, hsep]
  rw [if_pos (by decide)]
  rw [hdecomp, dropThroughChar_append _ huser, takeUntilChar_append _ hhost]
  rfl

theorem extractHost_url_form (scheme host path : String)
    (hs : ':' ∉ scheme.toList)
    (hh1 : '/' ∉ host.toList) (hh2 : '?' ∉ host.toList) (hh3 : '#' ∉ host.toList)
    (hh4 : '@' ∉ host.toList) (hh5 : ':' ∉ host.toList) :
    extractHost (scheme ++ "://" ++ host ++ "/" ++ path) = host := by
  have h1 : ("://" : String).toList = [':', '/', '/'] := rfl
  have h2 : ("/" : String).toList = ['/'] := rfl
  have hd : (scheme ++ "://" ++ host ++ "/" ++ path).toList
      = scheme.toList ++ ':' :: '/' :: '/' :: (host.toList ++ '/' :: path.toList) := by
    simp [toList_append, h1, h2]
  have hsep : containsSeq (scheme ++ "://" ++ host ++ "/" ++ path).toList
      [':', '/', '/'] = true := by
    rw [hd]
    have hm := containsSeq_middle scheme.toList [':', '/', '/']
      (host.toList ++ '/' :: path.toList)
    simpa using hm
  have hauth : (host.toList ++ '/' :: path.toList).takeWhile
      (fun c => !(c == '/' || c == '?' || c == '#')) = host.toList := by
    apply takeWhile_append_cons
    · intro c hc
      have c1 : ¬ (c == '/') := by
        simp only [beq_iff_eq]
        intro e
        exact hh1 (e ▸ hc)
      have c2 : ¬ (c == '?') := by
        simp only [beq_iff_eq]
        intro e
        exact hh2 (e ▸ hc)
      have c3 : ¬ (c == '#') := by
        simp only [beq_iff_eq]
        intro e
        exact hh3 (e ▸ hc)
      simp [c1, c2, c3]
    · decide
  unfold extractHost
  rw [hsep]
  rw [if_neg (by simp)]
  unfold urlHostname
  rw [hd, breakOnSchemeSep_append _ hs]
  dsimp only
  rw [hauth, contains_eq_false_of_not_mem hh4]
  rw [if_neg (by simp)]
  rw [takeUntilChar_of_not_mem hh5]
  rfl

/-- C6: `ensureHostKeys` is a no-op when strict checking is disabled or
the host is already in the trust store, otherwise scans and appends the
host's keys; `refreshHostKeys` unconditionally re-scans and overwrites
the whole store; both error when no hostname can be resolved from the
remote URL; and `extractHost` resolves the host of both the
`user@host:path` and the `scheme://host/path` forms. -/
theorem c6_hostKeys_spec (insecure : Bool) (gitRepoURL : String)
    (env : HostKeyEnv) (store : List String) :
    (insecure = true → ensureHostKeys insecure gitRepoURL env store = Except.ok store)
    ∧ (insecure = false → extractHost gitRepoURL = "" →
        ensureHostKeys insecure gitRepoURL env store
          = Except.error ("could not extract host from repo URL: " ++ gitRepoURL))
    ∧ (insecure = false → extractHost gitRepoURL ≠ "" →
        hostInKnownHosts store (extractHost gitRepoURL) = true →
        ensureHostKeys insecure gitRepoURL env store = Except.ok store)
    ∧ (insecure = false → extractHost gitRepoURL ≠ "" →
        hostInKnownHosts store (extractHost gitRepoURL) = false →
        ∀ keys, env.scan (extractHost gitRepoURL) = some keys →
        ensureHostKeys insecure gitRepoURL env store = Except.ok (store ++ keys))
    ∧ (extractHost gitRepoURL = "" →
        refreshHostKeys gitRepoURL env store
          = Except.error ("could not extract host from repo URL: " ++ gitRepoURL))
    ∧ (extractHost gitRepoURL ≠ "" →
        ∀ keys, env.scan (extractHost gitRepoURL) = some keys →
        refreshHostKeys gitRepoURL env store = Except.ok keys)
    ∧ (∀ user hostname path : String, '@' ∉ user.toList → ':' ∉ hostname.toList →
        containsSeq (user ++ "@" ++ hostname ++ ":" ++ path).toList [':', '/', '/'] = false →
        extractHost (user ++ "@" ++ hostname ++ ":" ++ path) = hostname)
    ∧ (∀ scheme hostname path : String, ':' ∉ scheme.toList →
        '/' ∉ hostname.toList → '?' ∉ hostname.toList → '#' ∉ hostname.toList →
        '@' ∉ hostname.toList → ':' ∉ hostname.toList →
        extractHost (scheme ++ "://" ++ hostname ++ "/" ++ path) = hostname) := by
  refine ⟨?_, ?_, ?_, ?_, ?_, ?_,
    fun u h p a b c => extractHost_ssh_form u h p a b c,
    fun s h p a b c d e f => extractHost_url_form s h p a b c d e f⟩
  · intro hins
    simp [ensureHostKeys, hins]
  · intro hins hhost
    simp [ensureHostKeys, hins, hhost]
  · intro hins hne hin
    simp [ensureHostKeys, hins, hne, hin]
  · intro hins hne hnotin keys hscan
    simp [ensureHostKeys, scanAndAppendHostKeys, hins, hne, hnotin, hscan]
  · intro hhost
    simp [refreshHostKeys, hhost]
  · intro hne keys hscan
    simp [refreshHostKeys, scanAndWriteHostKeys, hne, hscan]

theorem c6_witness :
    ensureHostKeys false "git@github.com:user/repo.git"
      ⟨fun _ => some ["github.com ssh-ed25519 K"]⟩ []
      = Except.ok ([] ++ ["github.com ssh-ed25519 K"]) :=
  (c6_hostKeys_spec false "git@github.com:user/repo.git"
      ⟨fun _ => some ["github.com ssh-ed25519 K"]⟩ []).2.2.2.1
    rfl (by decide) (by decide) ["github.com ssh-ed25519 K"] rfl

/-- C4: a POST whose Origin (or, when absent, Referer scheme+host)
matches no allow-list entry, or whose non-empty submitted redirect URL
has a scheme+host matching no allow-list entry, is answered with a plain
403 and never with a redirect, regardless of the other fields. -/
theorem c4_origin_reject_spec (cfg : Config) (env : HandlerEnv) (r : Request)
    (hpost : r.method = "POST")
    (h : checkOrigin cfg.AllowedOrigins r = false
         ∨ (trimSpace (r.form "url") ≠ ""
            ∧ isAllowedRedirect cfg.AllowedOrigins (trimSpace (r.form "url")) = false)) :
    (ServeHTTP cfg env r = Response.plainError 403 "Forbidden: origin not allowed"
     ∨ ServeHTTP cfg env r
        = Response.plainError 403 "Forbidden: redirect URL origin not allowed")
    ∧ (∀ u m, ServeHTTP cfg env r ≠ Response.seeOtherError u m)
    ∧ (∀ u, ServeHTTP cfg env r ≠ Response.seeOtherSuccess u) := by
  have hres : ServeHTTP cfg env r = Response.plainError 403 "Forbidden: origin not allowed"
      ∨ ServeHTTP cfg env r
        = Response.plainError 403 "Forbidden: redirect URL origin not allowed" := by
    cases hco : checkOrigin cfg.AllowedOrigins r
    · exact Or.inl (by simp [ServeHTTP, hpost, hco])
    · rcases h with hcontra | ⟨hne, hnotallowed⟩
      · rw [hcontra] at hco
        exact absurd hco (by simp)
      · exact Or.inr (by simp [ServeHTTP, hpost, hco, hne, hnotallowed])
  refine ⟨hres, ?_, ?_⟩
  · intro u m
    rcases hres with hres | hres <;> rw [hres] <;> simp
  · intro u
    rcases hres with hres | hres <;> rw [hres] <;> simp

theorem c4_witness :
    ServeHTTP ⟨"_data/comments", "", ["https://example.com"]⟩
        ⟨fun _ => true, some "p", true⟩
        ⟨"POST", "https://evil.com", "", fun _ => ""⟩
      = Response.plainError 403 "Forbidden: origin not allowed"
    ∨ ServeHTTP ⟨"_data/comments", "", ["https://example.com"]⟩
        ⟨fun _ => true, some "p", true⟩
        ⟨"POST", "https://evil.com", "", fun _ => ""⟩
      = Response.plainError 403 "Forbidden: redirect URL origin not allowed" :=
  (c4_origin_reject_spec ⟨"_data/comments", "", ["https://example.com"]⟩
    ⟨fun _ => true, some "p", true⟩
    ⟨"POST", "https://evil.com", "", fun _ => ""⟩
    rfl (Or.inl (by decide))).1

theorem dropWhile_replicate_of_neg {p : Char → Bool} {a : Char}
    (h : p a = false) (n : Nat) :
    (List.replicate n a).dropWhile p = List.replicate n a := by
  cases n with
  | zero => rfl
  | succ m => simp [List.replicate_succ, List.dropWhile_cons, h]

theorem trimSpace_replicate (n : Nat) {a : Char} (h : isSpaceChar a = false) :
    trimSpace (String.mk (List.replicate n a)) = String.mk (List.replicate n a) := by
  have h1 : (String.mk (List.replicate n a)).toList = List.replicate n a := rfl
  unfold trimSpace
  rw [h1, dropWhile_replicate_of_neg h, List.reverse_replicate,
    dropWhile_replicate_of_neg h, List.reverse_replicate]

theorem utf8Len_replicate (n : Nat) (a : Char) :
    utf8Len (String.mk (List.replicate n a)) = n * a.utf8Size := by
  have key : ∀ m acc, (List.replicate m a).foldl (fun k c => k + c.utf8Size) acc
      = acc + m * a.utf8Size := by
    intro m
    induction m with
    | zero => intro acc; simp
    | succ k ih =>
      intro acc
      rw [List.replicate_succ, List.foldl_cons, ih]
      ring
  have h1 : (String.mk (List.replicate n a)).toList = List.replicate n a := rfl
  unfold utf8Len
  rw [h1, key]
  simp

theorem length_mk_replicate (n : Nat) (a : Char) :
    (String.mk (List.replicate n a)).length = n := by
  show (List.replicate n a).length = n
  exact List.length_replicate n a

theorem serveHTTP_body_too_long (cfg : Config) (env : HandlerEnv) (r : Request)
    (hpost : r.method = "POST")
    (horigin : checkOrigin cfg.AllowedOrigins r = true)
    (hurl : trimSpace (r.form "url") ≠ "")
    (hallowed : isAllowedRedirect cfg.AllowedOrigins (trimSpace (r.form "url")) = true)
    (hname : trimSpace (r.form "name") ≠ "")
    (hbody : trimSpace (r.form "body") ≠ "")
    (hslug : trimSpace (r.form "slug") ≠ "")
    (hlong : defaultMaxBodyLen < utf8Len (trimSpace (r.form "body"))) :
    ServeHTTP cfg env r
      = Response.seeOtherError (trimSpace (r.form "url")) "Comment body too long" := by
  simp [ServeHTTP, errorRedirect, hpost, horigin, hallowed, hname, hbody, hslug, hurl, hlong]

/-- C8 (amended): once method, origin, redirect-URL and required-field
checks have passed, a trimmed body whose UTF-8 byte length exceeds
`defaultMaxBodyLen` (10000 bytes — Go `len(body)` counts bytes, not
characters) draws a see-other error redirect with the
`Comment body too long` message, and a body of at most that many bytes
is never rejected with that message. -/
theorem c8_bodyLength_spec (cfg : Config) (env : HandlerEnv) (r : Request)
    (hpost : r.method = "POST")
    (horigin : checkOrigin cfg.AllowedOrigins r = true)
    (hurl : trimSpace (r.form "url") ≠ "")
    (hallowed : isAllowedRedirect cfg.AllowedOrigins (trimSpace (r.form "url")) = true)
    (hname : trimSpace (r.form "name") ≠ "")
    (hbody : trimSpace (r.form "body") ≠ "")
    (hslug : trimSpace (r.form "slug") ≠ "") :
    (defaultMaxBodyLen < utf8Len (trimSpace (r.form "body")) →
        ServeHTTP cfg env r
          = Response.seeOtherError (trimSpace (r.form "url")) "Comment body too long")
    ∧ (utf8Len (trimSpace (r.form "body")) ≤ defaultMaxBodyLen →
        (∀ u, ServeHTTP cfg env r ≠ Response.seeOtherError u "Comment body too long")
        ∧ (∀ s, ServeHTTP cfg env r ≠ Response.plainError s "Comment body too long")) := by
  constructor
  · intro hlong
    exact serveHTTP_body_too_long cfg env r hpost horigin hurl hallowed hname hbody hslug hlong
  · intro hshort
    have hnlt : ¬ defaultMaxBodyLen < utf8Len (trimSpace (r.form "body")) := not_lt.mpr hshort
    have hser : ServeHTTP cfg env r = Response.seeOtherSuccess (trimSpace (r.form "url"))
        ∨ ∃ m, m ≠ "Comment body too long"
            ∧ ServeHTTP cfg env r = Response.seeOtherError (trimSpace (r.form "url")) m := by
      by_cases hvs : isValidSlug (trimSpace (r.form "slug")) = false
      · exact Or.inr ⟨"Invalid slug", by decide, by
          simp [ServeHTTP, errorRedirect, hpost, horigin, hallowed, hname, hbody, hslug,
            hurl, hnlt, hvs]⟩
      · by_cases hrt : trimSpace (r.form "reply_to") ≠ ""
            ∧ isValidSlug (trimSpace (r.form "reply_to")) = false
        · exact Or.inr ⟨"Invalid reply_to", by decide, by
            simp [ServeHTTP, errorRedirect, hpost, horigin, hallowed, hname, hbody, hslug,
              hurl, hnlt, hvs, hrt]⟩
        · by_cases hpe : cfg.PostsPath ≠ "" ∧ env.postExists (trimSpace (r.form "slug")) = false
          · exact Or.inr ⟨"Post not found", by decide, by
              simp [ServeHTTP, errorRedirect, hpost, horigin, hallowed, hname, hbody, hslug,
                hurl, hnlt, hvs, hrt, hpe]⟩
          · cases hw : env.writeCommentResult with
            | none => exact Or.inr ⟨"Failed to save comment", by decide, by
                simp [ServeHTTP, errorRedirect, hpost, horigin, hallowed, hname, hbody, hslug,
                  hurl, hnlt, hvs, hrt, hpe, hw]⟩
            | some p =>
              cases hc : env.commitAndPushOk
              · exact Or.inr ⟨"Failed to publish comment", by decide, by
                  simp [ServeHTTP, errorRedirect, hpost, horigin, hallowed, hname, hbody, hslug,
                    hurl, hnlt, hvs, hrt, hpe, hw, hc]⟩
              · exact Or.inl (by
                  simp [ServeHTTP, errorRedirect, hpost, horigin, hallowed, hname, hbody, hslug,
                    hurl, hnlt, hvs, hrt, hpe, hw, hc])
    constructor
    · intro u
      rcases hser with hres | ⟨m, hm, hres⟩
      · rw [hres]
        simp
      · rw [hres]
        simp [hm]
    · intro s
      rcases hser with hres | ⟨m, hm, hres⟩ <;> rw [hres] <;> simp

theorem c8_witness :
    ServeHTTP ⟨"_data/comments", "", ["https://example.com"]⟩
        ⟨fun _ => true, some "p", true⟩
        ⟨"POST", "https://example.com", "",
          fun f => if f = "name" then "A" else if f = "body" then "hi"
            else if f = "slug" then "my-post" else if f = "url" then "https://example.com/p"
            else ""⟩
      ≠ Response.seeOtherError "https://example.com/p" "Comment body too long" :=
  ((c8_bodyLength_spec ⟨"_data/comments", "", ["https://example.com"]⟩
      ⟨fun _ => true, some "p", true⟩
      ⟨"POST", "https://example.com", "",
        fun f => if f = "name" then "A" else if f = "body" then "hi"
          else if f = "slug" then "my-post" else if f = "url" then "https://example.com/p"
          else ""⟩
      rfl (by decide) (by decide) (by decide) (by decide) (by decide) (by decide)).2
    (by decide)).1 "https://example.com/p"

theorem fsLookup_fsWrite (fs : FS) (p data : String) :
    fsLookup (fsWrite fs p data) p = some data := by
  induction fs with
  | nil => simp [fsWrite, fsLookup]
  | cons qd rest ih =>
    obtain ⟨q, d⟩ := qd
    by_cases hq : q == p
    · simp [fsWrite, fsLookup, hq]
    · simp only [fsWrite, fsLookup, hq, Bool.false_eq_true, if_false]
      exact ih

/-- C7 counterexample: `writeComment` at a filesystem that already holds
a file at the generated path succeeds (no error is surfaced) and
replaces the existing contents, so a name collision is not surfaced as
an error. -/
theorem c7_counterexample :
    (writeComment "_data/comments"
        [("/app/repo/_data/comments/p/20240506070809-00010203.yml", "old")]
        ⟨"A", "", "hi", "2024", "p", ""⟩ ⟨2024, 5, 6, 7, 8, 9⟩ [0, 1, 2, 3]).1
      = Except.ok "_data/comments/p/20240506070809-00010203.yml"
    ∧ fsLookup [("/app/repo/_data/comments/p/20240506070809-00010203.yml", "old")]
        "/app/repo/_data/comments/p/20240506070809-00010203.yml" = some "old"
    ∧ fsLookup (writeComment "_data/comments"
        [("/app/repo/_data/comments/p/20240506070809-00010203.yml", "old")]
        ⟨"A", "", "hi", "2024", "p", ""⟩ ⟨2024, 5, 6, 7, 8, 9⟩ [0, 1, 2, 3]).2
        "/app/repo/_data/comments/p/20240506070809-00010203.yml" ≠ some "old" := by
  refine ⟨rfl, by decide, by decide⟩

/-- C7 (amended): `writeComment` writes the record at
`<comments-root>/<slug>/<UTC second-precision stamp>-<random hex>.yml`
and returns that relative path with no error; when a file already exists
at that path it is silently overwritten (`os.WriteFile` truncates)
rather than the collision being surfaced as an error. -/
theorem c7_writeComment_spec (commentsPath : String) (fs : FS) (c : Comment)
    (now : UTCTime) (rnd : List Nat) :
    (writeComment commentsPath fs c now rnd).1
      = Except.ok ((commentsPath ++ "/" ++ c.Slug) ++ "/"
          ++ (formatTimestamp now ++ "-" ++ randomHex rnd ++ ".yml"))
    ∧ fsLookup (writeComment commentsPath fs c now rnd).2
        (repoDir ++ "/" ++ ((commentsPath ++ "/" ++ c.Slug) ++ "/"
          ++ (formatTimestamp now ++ "-" ++ randomHex rnd ++ ".yml")))
      = some (yamlMarshal c) :=
  ⟨rfl, fsLookup_fsWrite fs _ _⟩

/-- C8 counterexample: the claim's character reading is false of the
code. A trimmed body of 5001 two-byte characters has at most 10000
characters, yet the handler (which, like Go `len`, counts UTF-8 bytes:
10002) rejects it with the `Comment body too long` error redirect. -/
theorem c8_counterexample :
    (trimSpace (String.mk (List.replicate 5001 'é'))).length ≤ defaultMaxBodyLen
    ∧ ServeHTTP ⟨"_data/comments", "", ["https://example.com"]⟩
        ⟨fun _ => true, some "p", true⟩
        ⟨"POST", "https://example.com", "",
          fun f => if f = "name" then "A"
            else if f = "body" then String.mk (List.replicate 5001 'é')
            else if f = "slug" then "my-post"
            else if f = "url" then "https://example.com/p" else ""⟩
      = Response.seeOtherError "https://example.com/p" "Comment body too long" := by
  have htrim : trimSpace (String.mk (List.replicate 5001 'é'))
      = String.mk (List.replicate 5001 'é') := trimSpace_replicate 5001 (by decide)
  have hne : String.mk (List.replicate 5001 'é') ≠ "" := by
    intro hc
    have hlen := congrArg String.length hc
    rw [length_mk_replicate] at hlen
    exact absurd hlen (by decide)
  constructor
  · rw [htrim, length_mk_replicate]
    decide
  · apply serveHTTP_body_too_long
    · rfl
    · decide
    · decide
    · decide
    · decide
    · show trimSpace (String.mk (List.replicate 5001 'é')) ≠ ""
      rw [htrim]
      exact hne
    · decide
    · show defaultMaxBodyLen < utf8Len (trimSpace (String.mk (List.replicate 5001 'é')))
      rw [htrim, utf8Len_replicate]
      decide

end Staticomment
